import Mathlib

/-!
Verification development for the session-correlation registry and
trace-lifecycle coordinator implemented in
`toolkit/packages/utilities/hooks/utils/langfuse/tracer.py`.

The Python module is embedded shallowly:

* a `SessionRecord` / `IndexRecord` mirror the JSON dictionaries stored in
  `~/.claude/langfuse/sessions/<session_id>.json` and `sessions/index.json`;
* the on-disk session files are modelled as an association list from
  session id to record (one file per id); the index is a separate field,
  mirroring the separate `index.json` file (the code's glob loop skips
  `index.json`, so the two stores never mix for valid ids, i.e. ids other
  than the literal string `"index"`);
* Python `dict` insertion/update semantics are modelled by association-list
  operations that update an existing key in place and append new keys;
* timestamps (`datetime.now().isoformat()`) are modelled as natural numbers
  counting seconds; ISO-8601 strings of the produced shape compare
  lexicographically exactly as the underlying times compare, and
  `age_hours = age_seconds / 3600 > H` is modelled as
  `age_seconds > H * 3600`;
* every registry operation additionally returns the list of lock/store
  events it performs, in program order, so that the locking discipline of
  the code can be stated and checked.
-/

/-- Ghost instrumentation: the observable lock and store events a registry
operation performs, in program order. -/
inductive Event where
  | acquire (name : String)
  | release (name : String)
  | saveSession (sid : String)
  | saveIndex
deriving DecidableEq, Repr

/-- One entry of a session record's `pending_spans` list. -/
structure PendingSpan where
  span_id : String
  tool_name : String
  started_at : Nat
deriving DecidableEq, Repr

/-- The JSON dictionary stored in `sessions/<session_id>.json`.  The
`**metadata` keyword arguments of `register_session` are not modelled: the
only call site in the repository passes `git_branch` alone. -/
structure SessionRecord where
  session_id : String
  trace_id : String
  created_at : Nat
  last_activity : Nat
  cwd : String
  cwd_hash : String
  ppid : Nat
  git_branch : Option String
  status : String
  pending_spans : List PendingSpan
deriving DecidableEq, Repr

/-- The JSON dictionary stored in `sessions/index.json`.  Python dicts are
modelled as association lists preserving insertion order; the `str(ppid)`
keys of `ppid_to_session` are modelled directly as naturals (the string
conversion is injective on them). -/
structure IndexRecord where
  cwd_to_sessions : List (String × List String)
  ppid_to_session : List (Nat × String)
deriving DecidableEq, Repr

/-- The whole persistent state of one registry: the per-session files and
the shared index file. -/
structure RegistryState where
  sessions : List (String × SessionRecord)
  index : IndexRecord
deriving DecidableEq, Repr

/-- The ambient process context of one operation: current working
directory, parent process id (`os.getppid()`), and the current time. -/
structure Env where
  cwd : String
  ppid : Nat
  now : Nat
deriving DecidableEq, Repr

/-- Lookup in an association list: first entry with the given key, the
value a Python `dict.get` returns. -/
def alistLookup {α β : Type} [DecidableEq α] (k : α) : List (α × β) → Option β
  | [] => none
  | (k', v) :: rest => if k' = k then some v else alistLookup k rest

/-- Python `d[k] = v`: replace the value at an existing key in place, or
append a new key at the end (insertion-ordered dict semantics). -/
def alistInsert {α β : Type} [DecidableEq α] (k : α) (v : β) : List (α × β) → List (α × β)
  | [] => [(k, v)]
  | (k', v') :: rest => if k' = k then (k, v) :: rest else (k', v') :: alistInsert k v rest

/-- Python `del d[k]` / file unlink: drop the first entry with the key. -/
def alistErase {α β : Type} [DecidableEq α] (k : α) : List (α × β) → List (α × β)
  | [] => []
  | (k', v') :: rest => if k' = k then rest else (k', v') :: alistErase k rest

/-- `_load_session`: read `sessions/<sid>.json`, absent when the file does
not exist.  (A corrupt file, which `_load_json` turns into the empty dict,
is collapsed into absence; no claim depends on the difference.) -/
def loadSession (st : RegistryState) (sid : String) : Option SessionRecord :=
  alistLookup sid st.sessions

/-- The fresh record `register_session` builds before saving it. -/
def mkRegisterRecord (hash : String → String) (env : Env) (sid tid : String)
    (gb : Option String) : SessionRecord :=
  { session_id := sid
    trace_id := tid
    created_at := env.now
    last_activity := env.now
    cwd := env.cwd
    cwd_hash := hash env.cwd
    ppid := env.ppid
    git_branch := gb
    status := "active"
    pending_spans := [] }

/-- `SessionRegistry.register_session`: build a fresh `active` record and
save it under the session lock; then, under the separate index lock, append
the id to `cwd_to_sessions[cwd_hash]` if absent and point
`ppid_to_session[ppid]` at it.  `_hash_cwd` (an MD5 prefix) is passed in as
an abstract function `hash`. -/
def register_session (hash : String → String) (env : Env) (sid tid : String)
    (gb : Option String) (st : RegistryState) : RegistryState × List Event :=
  let cwdHash := hash env.cwd
  let freshRecord := mkRegisterRecord hash env sid tid gb
  let st1 : RegistryState := { st with sessions := alistInsert sid freshRecord st.sessions }
  let bucket := (alistLookup cwdHash st1.index.cwd_to_sessions).getD []
  let bucket' := if sid ∈ bucket then bucket else bucket ++ [sid]
  let idx : IndexRecord :=
    { cwd_to_sessions := alistInsert cwdHash bucket' st1.index.cwd_to_sessions
      ppid_to_session := alistInsert env.ppid sid st1.index.ppid_to_session }
  ({ st1 with index := idx },
   [.acquire sid, .saveSession sid, .release sid,
    .acquire "index", .saveIndex, .release "index"])

/-- Python `max(active_sessions, key=...)`: the first element whose key is
maximal (later elements replace the running maximum only when strictly
greater). -/
def maxByLastActivity (l : List SessionRecord) : Option SessionRecord :=
  l.foldl
    (fun acc s =>
      match acc with
      | none => some s
      | some m => if m.last_activity < s.last_activity then some s else some m)
    none

/-- The record-collecting loop of `find_session_for_tool`: load every id
of the bucket and keep the records whose status is `active`. -/
def activeOf (st : RegistryState) (ids : List String) : List SessionRecord :=
  ids.filterMap fun sid =>
    match loadSession st sid with
    | some s => if s.status = "active" then some s else none
    | none => none

/-- `SessionRegistry.find_session_for_tool`: CWD-primary, PPID-fallback
correlation, exactly as the Python control flow reads: empty bucket falls
back to the `ppid_to_session` entry (a truthiness check on the stored id);
otherwise keep the `active` records of the bucket, return the single one,
else the first with the caller's ppid, else the most recently active. -/
def find_session_for_tool (hash : String → String) (env : Env)
    (st : RegistryState) : Option SessionRecord :=
  let cwdHash := hash env.cwd
  let sessionIds := (alistLookup cwdHash st.index.cwd_to_sessions).getD []
  if sessionIds.isEmpty then
    match alistLookup env.ppid st.index.ppid_to_session with
    | some ppidSession =>
        if ppidSession = "" then none
        else
          match loadSession st ppidSession with
          | some s => if s.status = "active" then some s else none
          | none => none
    | none => none
  else
    let active := activeOf st sessionIds
    if active.isEmpty then none
    else if active.length = 1 then active.head?
    else
      match active.find? (fun s => s.ppid == env.ppid) with
      | some s => some s
      | none => maxByLastActivity active

/-- `SessionRegistry.update_session`: read-modify-write of one record under
its lock; applies the keyword updates, always bumps `last_activity`, and
silently does nothing when the record is absent. -/
def update_session (env : Env) (sid : String) (updates : SessionRecord → SessionRecord)
    (st : RegistryState) : RegistryState × List Event :=
  match loadSession st sid with
  | none => (st, [.acquire sid, .release sid])
  | some s =>
      let s1 := updates s
      let s2 := { s1 with last_activity := env.now }
      ({ st with sessions := alistInsert sid s2 st.sessions },
       [.acquire sid, .saveSession sid, .release sid])

/-- `SessionRegistry.add_pending_span`: append a pending span to the
record under its lock (no-op when the record is absent). -/
def add_pending_span (env : Env) (sid spanId toolName : String)
    (st : RegistryState) : RegistryState × List Event :=
  match loadSession st sid with
  | none => (st, [.acquire sid, .release sid])
  | some s =>
      let s' := { s with
        pending_spans := s.pending_spans ++ [⟨spanId, toolName, env.now⟩]
        last_activity := env.now }
      ({ st with sessions := alistInsert sid s' st.sessions },
       [.acquire sid, .saveSession sid, .release sid])

/-- The loop of `pop_pending_span`: first entry whose `tool_name` matches,
together with the list with that entry removed. -/
def popFirstMatching (toolName : String) :
    List PendingSpan → Option (PendingSpan × List PendingSpan)
  | [] => none
  | p :: rest =>
      if p.tool_name = toolName then some (p, rest)
      else (popFirstMatching toolName rest).map fun qr => (qr.1, p :: qr.2)

/-- `SessionRegistry.pop_pending_span`: under the session lock, remove and
return the oldest pending span matching `toolName`; on a miss (or a missing
record) return absent without saving anything. -/
def pop_pending_span (env : Env) (sid toolName : String) (st : RegistryState) :
    Option PendingSpan × RegistryState × List Event :=
  match loadSession st sid with
  | none => (none, st, [.acquire sid, .release sid])
  | some s =>
      match popFirstMatching toolName s.pending_spans with
      | none => (none, st, [.acquire sid, .release sid])
      | some (span, rest) =>
          let s' := { s with pending_spans := rest, last_activity := env.now }
          (some span,
           { st with sessions := alistInsert sid s' st.sessions },
           [.acquire sid, .saveSession sid, .release sid])

/-- `SessionRegistry.mark_session_stopped`. -/
def mark_session_stopped (env : Env) (sid : String) (st : RegistryState) :
    RegistryState × List Event :=
  update_session env sid (fun s => { s with status := "stopped" }) st

/-- `SessionRegistry.reactivate_session`.  The index-update block sits in a
`try/except` whose `release` call is on the success path only; the
`failIndexUpdate` flag models `_save_index` raising there (for example a
`TypeError` out of `json.dump` on a corrupt index), in which case the
handler swallows the exception and the **index lock is never released**,
while the function still returns the trace id. -/
def reactivate_session (hash : String → String) (env : Env)
    (failIndexUpdate : Bool) (sid : String) (st : RegistryState) :
    Option String × RegistryState × List Event :=
  match loadSession st sid with
  | none => (none, st, [.acquire sid, .release sid])
  | some s =>
      let cwdHash := hash env.cwd
      let s' := { s with
        status := "active"
        ppid := env.ppid
        cwd := env.cwd
        cwd_hash := cwdHash
        last_activity := env.now }
      let st1 : RegistryState := { st with sessions := alistInsert sid s' st.sessions }
      if failIndexUpdate then
        (some s'.trace_id, st1,
         [.acquire sid, .saveSession sid, .acquire "index", .release sid])
      else
        let bucket := (alistLookup cwdHash st1.index.cwd_to_sessions).getD []
        let bucket' := if sid ∈ bucket then bucket else bucket ++ [sid]
        let idx : IndexRecord :=
          { cwd_to_sessions := alistInsert cwdHash bucket' st1.index.cwd_to_sessions
            ppid_to_session := alistInsert env.ppid sid st1.index.ppid_to_session }
        (some s'.trace_id, { st1 with index := idx },
         [.acquire sid, .saveSession sid, .acquire "index", .saveIndex,
          .release "index", .release sid])

/-- The index half of `_remove_session`: erase the id from every
`cwd_to_sessions` bucket (`list.remove`, first occurrence), dropping a
bucket that becomes empty, and drop every `ppid_to_session` entry mapping
to the id. -/
def purgeSessionFromIndex (sid : String) (idx : IndexRecord) : IndexRecord :=
  { cwd_to_sessions := idx.cwd_to_sessions.filterMap fun hl =>
      if sid ∈ hl.2 then
        (let l' := hl.2.erase sid
         if l' = [] then none else some (hl.1, l'))
      else some hl
    ppid_to_session := idx.ppid_to_session.filter fun ps => ps.2 ≠ sid }

/-- `SessionRegistry._remove_session`: unlink the record file, then purge
the id from both index maps under the index lock (the lock-file unlink at
the end has no observable effect on the modelled state). -/
def remove_session (sid : String) (st : RegistryState) : RegistryState × List Event :=
  ({ sessions := alistErase sid st.sessions
     index := purgeSessionFromIndex sid st.index },
   [.acquire "index", .saveIndex, .release "index"])

/-- The body of the `cleanup_stale_sessions` loop for one session file:
ignore unreadable files; mark an over-age `active` record `stale` via
`update_session`; delete an over-age `stopped`/`stale` record via
`_remove_session`.  `age_hours > H` on second-resolution timestamps is
`age_seconds > H * 3600`. -/
def cleanup_step (env : Env) (maxAgeHours : Nat) (st : RegistryState)
    (fileKey : String) : RegistryState :=
  match loadSession st fileKey with
  | none => st
  | some s =>
      let ageSeconds := env.now - s.last_activity
      if s.status = "active" ∧ ageSeconds > maxAgeHours * 3600 then
        (update_session env s.session_id (fun r => { r with status := "stale" }) st).1
      else if (s.status = "stopped" ∨ s.status = "stale") ∧ ageSeconds > maxAgeHours * 7200 then
        (remove_session s.session_id st).1
      else st

/-- `SessionRegistry.cleanup_stale_sessions`: iterate over the session
files present when the sweep starts (the glob snapshot; `index.json` is
skipped by the loop and is not part of `sessions` here), re-reading each
record from the current state. -/
def cleanup_stale_sessions (env : Env) (maxAgeHours : Nat)
    (st : RegistryState) : RegistryState :=
  (st.sessions.map Prod.fst).foldl (cleanup_step env maxAgeHours) st

/-- Model of `_acquire_lock`, which opens the lock file and calls
`fcntl.flock(fd, fcntl.LOCK_EX)` with no timeout: against an availability
schedule (`free k` = the lock is free at the k-th poll), acquisition
starting at poll `start` succeeds at the first free poll; `fuel` bounds how
long we are willing to observe the blocked call.  The code has no other
exit: no timeout parameter, no fallback branch. -/
def acquireLockFuel (free : Nat → Bool) (start : Nat) : Nat → Option Nat
  | 0 => none
  | fuel + 1 => if free start then some start else acquireLockFuel free (start + 1) fuel

/-- A Python value as it appears in tool inputs and results: `None`,
booleans, integers, strings, lists, dicts. -/
inductive PyVal where
  | vnull
  | vbool (b : Bool)
  | vint (n : Int)
  | vstr (s : String)
  | vlist (xs : List PyVal)
  | vdict (kvs : List (String × PyVal))
deriving Repr

/-- Python truthiness of a value. -/
def PyVal.truthy : PyVal → Bool
  | .vnull => false
  | .vbool b => b
  | .vint n => n != 0
  | .vstr s => s != ""
  | .vlist xs => !xs.isEmpty
  | .vdict kvs => !kvs.isEmpty

/-- Python slicing `s[:n]` (by code points, like Lean `Char`s). -/
def pyTake (s : String) (n : Nat) : String :=
  String.mk (s.data.take n)

/-- Python `len` of a string (code points). -/
def pyLen (s : String) : Nat :=
  s.data.length

/-- A hexadecimal digit, lowercase, as `json.dumps` prints them. -/
def hexDigit (n : Nat) : Char :=
  if n < 10 then Char.ofNat (48 + n) else Char.ofNat (87 + n)

/-- Four lowercase hex digits. -/
def hex4 (n : Nat) : String :=
  String.mk [hexDigit (n / 4096 % 16), hexDigit (n / 256 % 16),
             hexDigit (n / 16 % 16), hexDigit (n % 16)]

/-- The escape `json.dumps` (defaults, `ensure_ascii=True`) applies to one
character. -/
def jsonEscapeChar (c : Char) : String :=
  let n := c.toNat
  if c = '"' then "\\\""
  else if c = '\\' then "\\\\"
  else if c = '\n' then "\\n"
  else if c = '\t' then "\\t"
  else if c = '\r' then "\\r"
  else if n = 8 then "\\b"
  else if n = 12 then "\\f"
  else if n < 32 ∨ n > 126 then
    if n ≤ 65535 then "\\u" ++ hex4 n
    else "\\u" ++ hex4 (55296 + (n - 65536) / 1024) ++ "\\u" ++ hex4 (56320 + (n - 65536) % 1024)
  else String.singleton c

/-- String body under `json.dumps` escaping. -/
def jsonEscape (s : String) : String :=
  String.join (s.data.map jsonEscapeChar)

mutual

/-- `json.dumps(value)` with default separators `", "` and `": "`. -/
def jsonDumps : PyVal → String
  | .vnull => "null"
  | .vbool true => "true"
  | .vbool false => "false"
  | .vint n => toString n
  | .vstr s => "\"" ++ jsonEscape s ++ "\""
  | .vlist xs => "[" ++ String.intercalate ", " (jsonDumpsList xs) ++ "]"
  | .vdict kvs => "\x7b" ++ String.intercalate ", " (jsonDumpsEntries kvs) ++ "\x7d"

def jsonDumpsList : List PyVal → List String
  | [] => []
  | x :: xs => jsonDumps x :: jsonDumpsList xs

def jsonDumpsEntries : List (String × PyVal) → List String
  | [] => []
  | kv :: kvs => ("\"" ++ jsonEscape kv.1 ++ "\": " ++ jsonDumps kv.2) :: jsonDumpsEntries kvs

end

/-- A single-quote character as a string (Python `repr` quoting). -/
def squote : String := String.singleton (Char.ofNat 39)

/-- The escape Python `repr` applies to one character of a string literal
(quote style fixed to single quotes; exotic characters approximated by the
common cases, which is all the sanitizers' size checks depend on). -/
def reprEscapeChar (c : Char) : String :=
  if c = '\\' then "\\\\"
  else if c.toNat = 39 then "\\" ++ String.singleton (Char.ofNat 39)
  else if c = '\n' then "\\n"
  else if c = '\t' then "\\t"
  else if c = '\r' then "\\r"
  else String.singleton c

mutual

/-- Python `str(value)`. -/
def pyStr : PyVal → String
  | .vnull => "None"
  | .vbool true => "True"
  | .vbool false => "False"
  | .vint n => toString n
  | .vstr s => s
  | .vlist xs => "[" ++ String.intercalate ", " (pyReprList xs) ++ "]"
  | .vdict kvs => "\x7b" ++ String.intercalate ", " (pyReprEntries kvs) ++ "\x7d"

/-- Python `repr(value)` (strings get quoted; containers print their
elements with `repr`). -/
def pyRepr : PyVal → String
  | .vstr s => squote ++ String.join (s.data.map reprEscapeChar) ++ squote
  | .vnull => "None"
  | .vbool true => "True"
  | .vbool false => "False"
  | .vint n => toString n
  | .vlist xs => "[" ++ String.intercalate ", " (pyReprList xs) ++ "]"
  | .vdict kvs => "\x7b" ++ String.intercalate ", " (pyReprEntries kvs) ++ "\x7d"

def pyReprList : List PyVal → List String
  | [] => []
  | x :: xs => pyRepr x :: pyReprList xs

def pyReprEntries : List (String × PyVal) → List String
  | [] => []
  | kv :: kvs => (squote ++ String.join (kv.1.data.map reprEscapeChar) ++ squote ++ ": " ++ pyRepr kv.2) :: pyReprEntries kvs

end

/-- The `"[<n> chars]"` placeholder. -/
def placeholderChars (n : Nat) : String :=
  "[" ++ toString n ++ " chars]"

/-- The `"[<n> chars JSON]"` placeholder for serialized structured values. -/
def placeholderJsonChars (n : Nat) : String :=
  "[" ++ toString n ++ " chars JSON]"

/-- The allow-list of `_sanitize_input`, exactly as the code spells it. -/
def allowListKeys : List String :=
  ["command", "file_path", "pattern", "query", "url"]

/-- `ClaudeCodeTracer._sanitize_input`: non-dict inputs are stringified and
truncated under a `"raw"` key; in a dict, allow-listed keys are stringified
and truncated to 500 (falsy values become `None`), a `content` value whose
text exceeds 200 characters becomes a size placeholder, any other string
over 500 characters becomes a size placeholder, a dict/list is serialized
and replaced by a placeholder when the JSON exceeds 500 characters, and
everything else is kept as is.  The `tool_name` argument is unused by the
code. -/
def sanitize_input (_toolName : String) (toolInput : PyVal) : PyVal :=
  match toolInput with
  | .vdict entries =>
      .vdict (entries.map fun kv =>
        (kv.1,
          if kv.1 ∈ allowListKeys then
            (if kv.2.truthy then PyVal.vstr (pyTake (pyStr kv.2) 500) else PyVal.vnull)
          else if kv.1 = "content" then
            (let contentLen := if kv.2.truthy then pyLen (pyStr kv.2) else 0
             if contentLen > 200 then PyVal.vstr (placeholderChars contentLen) else kv.2)
          else
            match kv.2 with
            | .vstr s =>
                if pyLen s > 500 then PyVal.vstr (placeholderChars (pyLen s)) else kv.2
            | .vdict _ =>
                let ser := jsonDumps kv.2
                if pyLen ser > 500 then PyVal.vstr (placeholderJsonChars (pyLen ser)) else kv.2
            | .vlist _ =>
                let ser := jsonDumps kv.2
                if pyLen ser > 500 then PyVal.vstr (placeholderJsonChars (pyLen ser)) else kv.2
            | _ => kv.2))
  | _ => .vdict [("raw", .vstr (pyTake (pyStr toolInput) 500))]

/-- `ClaudeCodeTracer._sanitize_output`: `None` passes through; a string
result over 1000 characters becomes a placeholder; in a dict result only
string fields over 500 characters are replaced (other fields, nested
structures included, are kept whole); any other result is stringified and
replaced by a placeholder when that string exceeds 1000 characters. -/
def sanitize_output (_toolName : String) (toolResult : PyVal) : PyVal :=
  match toolResult with
  | .vnull => .vnull
  | .vstr s =>
      if pyLen s > 1000 then .vstr (placeholderChars (pyLen s)) else .vstr s
  | .vdict entries =>
      .vdict (entries.map fun kv =>
        (kv.1,
          match kv.2 with
          | .vstr s =>
              if pyLen s > 500 then PyVal.vstr (placeholderChars (pyLen s)) else kv.2
          | _ => kv.2))
  | other =>
      let s := pyStr other
      if pyLen s > 1000 then .vstr (placeholderChars (pyLen s)) else other

/-- State threaded through a Trace Coordinator operation: the registry's
persistent state plus a counter numbering the external calls (backend,
store, locking primitive) made so far. -/
structure TState where
  reg : RegistryState
  counter : Nat

/-- Which external calls raise: `o k = true` means the k-th external call
(backend request, store access, or lock acquisition) raises an exception. -/
def Oracle : Type := Nat → Bool

/-- The ambient monad of a Trace Coordinator operation: state plus Python
exceptions. -/
def TraceM (α : Type) : Type := TState → Except String (α × TState)

instance : Monad TraceM where
  pure a := fun ts => .ok (a, ts)
  bind m f := fun ts =>
    match m ts with
    | .ok (a, ts') => f a ts'
    | .error e => .error e

/-- Read the threaded state. -/
def tGet : TraceM TState := fun ts => .ok (ts, ts)

/-- Replace the threaded state. -/
def tSet (ts : TState) : TraceM Unit := fun _ => .ok ((), ts)

/-- One external call site: consult the failure oracle and either raise or
advance the call counter. -/
def extCall (o : Oracle) : TraceM Unit := fun ts =>
  if o ts.counter then .error "exception"
  else .ok ((), { ts with counter := ts.counter + 1 })

/-- Python `try: body ... except Exception: return fallback`, as every
public coordinator operation wraps its body.  (On an absorbed exception the
model keeps the pre-call state; the claims only concern the returned
value.) -/
def pytryTo {α : Type} (m : TraceM α) (fallback : α) : TraceM α := fun ts =>
  match m ts with
  | .ok r => .ok r
  | .error _ => .ok (fallback, ts)

/-- `ClaudeCodeTracer.start_session_trace`.  `enabled` is
`self._client is not None`; `backendTraceId` is the id the backend returns
for `client.trace`.  External call sites, in program order: the
`get_session` store read, the `reactivate_session` lock/store work, the
`client.trace` backend request, the `register_session` lock/store work.
`cleanup_stale_sessions` absorbs every error internally and is modelled as
a non-raising state update. -/
def tracer_start_session_trace (o : Oracle) (hash : String → String) (env : Env)
    (enabled : Bool) (sid source backendTraceId : String) (gb : Option String) :
    TraceM String :=
  if !enabled then pure "noop"
  else
    pytryTo
      (do
        if source ≠ "startup" ∧ source ≠ "clear" then
          extCall o
          let ts ← tGet
          match loadSession ts.reg sid with
          | some existing =>
              if existing.trace_id ≠ "" then do
                extCall o
                let ts2 ← tGet
                let r := reactivate_session hash env false sid ts2.reg
                tSet { ts2 with reg := r.2.1 }
                match r.1 with
                | some tid => if tid ≠ "" then return tid
                | none => pure ()
              else pure ()
          | none => pure ()
        else pure ()
        extCall o
        extCall o
        let ts3 ← tGet
        tSet { ts3 with reg := (register_session hash env sid backendTraceId gb ts3.reg).1 }
        let ts4 ← tGet
        tSet { ts4 with reg := cleanup_stale_sessions env 24 ts4.reg }
        pure backendTraceId)
      "noop"

/-- `ClaudeCodeTracer.log_user_prompt`.  External call sites: the
`get_session` store read, the `client.span`/`span.end` backend requests,
the `update_session_activity` lock/store work. -/
def tracer_log_user_prompt (o : Oracle) (env : Env) (enabled : Bool)
    (sid backendSpanId : String) : TraceM String :=
  if !enabled then pure "noop"
  else
    pytryTo
      (do
        extCall o
        let ts ← tGet
        match loadSession ts.reg sid with
        | none => pure "noop"
        | some session =>
            if session.trace_id = "" ∨ session.trace_id = "noop" then pure "noop"
            else do
              extCall o
              extCall o
              let ts2 ← tGet
              tSet { ts2 with reg := (update_session env sid id ts2.reg).1 }
              pure backendSpanId)
      "noop"

/-- `ClaudeCodeTracer.start_tool_span`.  External call sites: the
`find_session_for_tool` index/record reads, the `client.span` backend
request, the `add_pending_span` lock/store work. -/
def tracer_start_tool_span (o : Oracle) (hash : String → String) (env : Env)
    (enabled : Bool) (toolName backendSpanId : String) : TraceM String :=
  if !enabled then pure "noop"
  else
    pytryTo
      (do
        extCall o
        let ts ← tGet
        match find_session_for_tool hash env ts.reg with
        | none => pure "noop"
        | some session =>
            if session.trace_id = "" ∨ session.trace_id = "noop" then pure "noop"
            else do
              extCall o
              extCall o
              let ts2 ← tGet
              tSet { ts2 with
                reg := (add_pending_span env session.session_id backendSpanId toolName ts2.reg).1 }
              pure backendSpanId)
      "noop"

/-- `ClaudeCodeTracer.end_tool_span`.  External call sites: the
`find_session_for_tool` reads, the `pop_pending_span` lock/store work, the
`client.span`/`span.update`/`span.end` backend requests. -/
def tracer_end_tool_span (o : Oracle) (hash : String → String) (env : Env)
    (enabled : Bool) (toolName : String) : TraceM Unit :=
  if !enabled then pure ()
  else
    pytryTo
      (do
        extCall o
        let ts ← tGet
        match find_session_for_tool hash env ts.reg with
        | none => pure ()
        | some session =>
            if session.trace_id = "" ∨ session.trace_id = "noop" then pure ()
            else do
              extCall o
              let ts2 ← tGet
              let r := pop_pending_span env session.session_id toolName ts2.reg
              tSet { ts2 with reg := r.2.1 }
              match r.1 with
              | none => pure ()
              | some _ => do
                  extCall o
                  pure ())
      ()

/-- `ClaudeCodeTracer.end_session_trace`.  External call sites: the
`get_session` store read, the `trace.update` backend request (only when the
stored trace id is live), the `flush` backend request, the
`mark_session_stopped` lock/store work. -/
def tracer_end_session_trace (o : Oracle) (env : Env) (enabled : Bool)
    (sid : String) : TraceM Unit :=
  if !enabled then pure ()
  else
    pytryTo
      (do
        extCall o
        let ts ← tGet
        match loadSession ts.reg sid with
        | none => pure ()
        | some session => do
            if session.trace_id ≠ "" ∧ session.trace_id ≠ "noop" then
              extCall o
            else pure ()
            extCall o
            extCall o
            let ts2 ← tGet
            tSet { ts2 with reg := (mark_session_stopped env sid ts2.reg).1 })
      ()

/-- `ClaudeCodeTracer.flush`: one backend call inside its own
`try/except`. -/
def tracer_flush (o : Oracle) (enabled : Bool) : TraceM Unit :=
  if !enabled then pure ()
  else pytryTo (extCall o) ()

/-- A Python call that returned instead of raising. -/
def neverRaises {α : Type} (r : Except String α) : Prop :=
  match r with
  | .ok _ => True
  | .error _ => False

/-- Remove one occurrence of a name from the held-locks list. -/
def removeOne (n : String) : List String → List String
  | [] => []
  | m :: ms => if m = n then ms else m :: removeOne n ms

/-- The locks still held after a prefix of an event trace (each `acquire`
pushes its name, each `release` removes one occurrence). -/
def heldList (tr : List Event) : List String :=
  tr.foldl
    (fun acc e =>
      match e with
      | .acquire n => n :: acc
      | .release n => removeOne n acc
      | _ => acc)
    []

/-- The two lock domains are never held simultaneously: after every prefix
of the trace at most one lock is held. -/
def neverTwoHeld (tr : List Event) : Prop :=
  ∀ pre ∈ tr.inits, (heldList pre).length ≤ 1

/-- Acquisitions are consistently ordered: the index lock is never already
held at any acquisition, and a session lock is only acquired when nothing
at all is held (so all nesting is session-then-index and no cross-domain
deadlock cycle can arise). -/
def sessionBeforeIndex (tr : List Event) : Prop :=
  ∀ q ∈ tr.inits, ∀ n, q.getLast? = some (.acquire n) →
    "index" ∉ heldList q.dropLast ∧ (n ≠ "index" → heldList q.dropLast = [])

theorem alistLookup_insert_self {α β : Type} [DecidableEq α] (k : α) (v : β)
    (l : List (α × β)) : alistLookup k (alistInsert k v l) = some v := by
  induction l with
  | nil => simp [alistInsert, alistLookup]
  | cons kv rest ih =>
      obtain ⟨k', v'⟩ := kv
      by_cases h : k' = k <;> simp [alistInsert, alistLookup, h, ih]

theorem alistLookup_insert_ne {α β : Type} [DecidableEq α] (k k' : α) (v : β)
    (l : List (α × β)) (h : k' ≠ k) :
    alistLookup k' (alistInsert k v l) = alistLookup k' l := by
  have h' : ¬k = k' := fun hh => h hh.symm
  induction l with
  | nil => simp [alistInsert, alistLookup, h']
  | cons kv rest ih =>
      obtain ⟨k₀, v₀⟩ := kv
      by_cases h0 : k₀ = k
      · subst h0
        simp [alistInsert, alistLookup, h']
      · simp [alistInsert, alistLookup, h0, ih]

theorem alistLookup_some_mem {α β : Type} [DecidableEq α] (k : α) (v : β)
    (l : List (α × β)) (h : alistLookup k l = some v) : (k, v) ∈ l := by
  induction l with
  | nil => simp [alistLookup] at h
  | cons kv rest ih =>
      obtain ⟨k', v'⟩ := kv
      by_cases hk : k' = k
      · subst hk
        simp [alistLookup] at h
        simp [h]
      · simp [alistLookup, hk] at h
        exact List.mem_cons_of_mem _ (ih h)

theorem alistLookup_append_left_none {β : Type} (k : String)
    (pre l : List (String × β)) (h : ∀ e ∈ pre, e.1 ≠ k) :
    alistLookup k (pre ++ l) = alistLookup k l := by
  induction pre with
  | nil => rfl
  | cons kv rest ih =>
      simp only [List.cons_append, alistLookup,
        if_neg (h kv (List.mem_cons_self kv rest))]
      exact ih fun e he => h e (List.mem_cons_of_mem _ he)

theorem alistLookup_of_mem_nodup {β : Type} (k : String) (v : β)
    (l : List (String × β)) (hmem : (k, v) ∈ l) (hnod : (l.map Prod.fst).Nodup) :
    alistLookup k l = some v := by
  induction l with
  | nil => simp at hmem
  | cons kv rest ih =>
      obtain ⟨k', v'⟩ := kv
      rw [List.map_cons] at hnod
      have hnod' := List.nodup_cons.mp hnod
      rcases List.mem_cons.mp hmem with heq | htail
      · injection heq with h1 h2
        subst h1
        subst h2
        simp [alistLookup]
      · have hkmem : k ∈ rest.map Prod.fst := by
          have := List.mem_map_of_mem Prod.fst htail
          simpa using this
        have hk : ¬k' = k := fun hh => hnod'.1 (hh ▸ hkmem)
        simp [alistLookup, hk, ih htail hnod'.2]

theorem alistInsert_append {β : Type} (k : String) (v s : β)
    (pre suf : List (String × β)) (h : ∀ e ∈ pre, e.1 ≠ k) :
    alistInsert k v (pre ++ (k, s) :: suf) = pre ++ (k, v) :: suf := by
  induction pre with
  | nil => simp [alistInsert]
  | cons kv rest ih =>
      simp only [List.cons_append, alistInsert, List.append_eq,
        if_neg (h kv (List.mem_cons_self kv rest))]
      rw [ih fun e he => h e (List.mem_cons_of_mem _ he)]

theorem alistErase_append {β : Type} (k : String) (s : β)
    (pre suf : List (String × β)) (h : ∀ e ∈ pre, e.1 ≠ k) :
    alistErase k (pre ++ (k, s) :: suf) = pre ++ suf := by
  induction pre with
  | nil => simp [alistErase]
  | cons kv rest ih =>
      simp only [List.cons_append, alistErase, List.append_eq,
        if_neg (h kv (List.mem_cons_self kv rest))]
      rw [ih fun e he => h e (List.mem_cons_of_mem _ he)]

theorem popFirstMatching_map_fst (t : String) (l : List PendingSpan) :
    (popFirstMatching t l).map Prod.fst = l.find? (fun p => p.tool_name == t) := by
  induction l with
  | nil => rfl
  | cons p rest ih =>
      by_cases h : p.tool_name = t
      · rw [List.find?_cons_of_pos _ (by simpa using h)]
        simp [popFirstMatching, h]
      · rw [List.find?_cons_of_neg _ (by simpa using h)]
        simp only [popFirstMatching, if_neg h, Option.map_map]
        rw [← ih]
        cases popFirstMatching t rest <;> simp

theorem popFirstMatching_none (t : String) (l : List PendingSpan)
    (h : ∀ p ∈ l, p.tool_name ≠ t) : popFirstMatching t l = none := by
  induction l with
  | nil => rfl
  | cons p rest ih =>
      simp only [popFirstMatching, if_neg (h p (List.mem_cons_self p rest))]
      rw [ih fun q hq => h q (List.mem_cons_of_mem _ hq)]
      rfl

theorem popFirstMatching_append (t : String) (l l₂ : List PendingSpan)
    (h : ∀ p ∈ l, p.tool_name ≠ t) :
    popFirstMatching t (l ++ l₂) =
      (popFirstMatching t l₂).map fun qr => (qr.1, l ++ qr.2) := by
  induction l with
  | nil => cases h2 : popFirstMatching t l₂ <;> simp [h2]
  | cons p rest ih =>
      simp only [List.cons_append, popFirstMatching,
        if_neg (h p (List.mem_cons_self p rest)), List.append_eq]
      rw [ih fun q hq => h q (List.mem_cons_of_mem _ hq)]
      cases popFirstMatching t l₂ <;> simp

theorem find_unique {α : Type} (p : α → Bool) (l : List α) (a : α)
    (ha : a ∈ l) (hpa : p a = true) (huniq : ∀ x ∈ l, p x = true → x = a) :
    l.find? p = some a := by
  induction l with
  | nil => simp at ha
  | cons y rest ih =>
      by_cases hy : p y = true
      · have : y = a := huniq y (List.mem_cons_self y rest) hy
        subst this
        exact List.find?_cons_of_pos _ hy
      · have hne : y ≠ a := fun h => hy (h ▸ hpa)
        have ha' : a ∈ rest := by
          rcases List.mem_cons.mp ha with h | h
          · exact absurd h.symm hne
          · exact h
        rw [List.find?_cons_of_neg _ (by simpa using hy)]
        exact ih ha' fun x hx hpx => huniq x (List.mem_cons_of_mem _ hx) hpx

theorem add_pending_span_load (env : Env) (sid spanId toolName : String)
    (st : RegistryState) (s : SessionRecord) (hl : loadSession st sid = some s) :
    loadSession (add_pending_span env sid spanId toolName st).1 sid =
      some { s with pending_spans := s.pending_spans ++ [⟨spanId, toolName, env.now⟩],
                    last_activity := env.now } := by
  have hl' : alistLookup sid st.sessions = some s := hl
  simp [add_pending_span, hl', loadSession, alistLookup_insert_self]

theorem pop_pending_span_hit (env : Env) (sid t : String) (st : RegistryState)
    (s : SessionRecord) (q : PendingSpan) (rest : List PendingSpan)
    (hl : loadSession st sid = some s)
    (hpm : popFirstMatching t s.pending_spans = some (q, rest)) :
    (pop_pending_span env sid t st).1 = some q ∧
    loadSession (pop_pending_span env sid t st).2.1 sid =
      some { s with pending_spans := rest, last_activity := env.now } := by
  have hl' : alistLookup sid st.sessions = some s := hl
  simp [pop_pending_span, hl', hpm, loadSession, alistLookup_insert_self]

theorem pop_pending_span_fst (env : Env) (sid t : String) (st : RegistryState)
    (s : SessionRecord) (hl : loadSession st sid = some s) :
    (pop_pending_span env sid t st).1 =
      s.pending_spans.find? (fun p => p.tool_name == t) := by
  rw [← popFirstMatching_map_fst]
  cases hpm : popFirstMatching t s.pending_spans with
  | none => simp [pop_pending_span, hl, hpm]
  | some qr => simp [pop_pending_span, hl, hpm]

/-- C2: for one session and one tool name, pending spans drain FIFO.  After
`add_pending_span` with span `a` and then span `b` (same tool name, the
record holding no earlier pending entry for that tool), the first
`pop_pending_span` returns `a` and the second returns `b`; and in general
the span `pop_pending_span` removes is the first (oldest, since
`add_pending_span` appends at the tail) still-pending entry whose
`tool_name` matches. -/
theorem pending_spans_fifo (env : Env) (sid t aId bId : String)
    (st : RegistryState) (s : SessionRecord)
    (hload : loadSession st sid = some s)
    (hclean : ∀ p ∈ s.pending_spans, p.tool_name ≠ t)
    (_hne : aId ≠ bId) :
    ((pop_pending_span env sid t
        (add_pending_span env sid bId t (add_pending_span env sid aId t st).1).1).1.map
          PendingSpan.span_id = some aId) ∧
    ((pop_pending_span env sid t
        (pop_pending_span env sid t
          (add_pending_span env sid bId t (add_pending_span env sid aId t st).1).1).2.1).1.map
            PendingSpan.span_id = some bId) ∧
    (∀ st' s', loadSession st' sid = some s' →
      (pop_pending_span env sid t st').1 =
        s'.pending_spans.find? (fun p => p.tool_name == t)) := by
  have hload1 := add_pending_span_load env sid aId t st s hload
  have hload2 := add_pending_span_load env sid bId t _ _ hload1
  have hpm1 : popFirstMatching t ((s.pending_spans ++ [⟨aId, t, env.now⟩]) ++ [⟨bId, t, env.now⟩])
      = some (⟨aId, t, env.now⟩, s.pending_spans ++ [⟨bId, t, env.now⟩]) := by
    rw [List.append_assoc, popFirstMatching_append t s.pending_spans _ hclean]
    simp [popFirstMatching]
  have hpop1 := pop_pending_span_hit env sid t _ _ _ _ hload2 hpm1
  have hpm2 : popFirstMatching t (s.pending_spans ++ [⟨bId, t, env.now⟩])
      = some (⟨bId, t, env.now⟩, s.pending_spans) := by
    rw [popFirstMatching_append t s.pending_spans _ hclean]
    simp [popFirstMatching]
  have hpop2 := pop_pending_span_hit env sid t _ _ _ _ hpop1.2 hpm2
  refine ⟨?_, ?_, ?_⟩
  · rw [hpop1.1]
    rfl
  · rw [hpop2.1]
    rfl
  · intro st' s' hl'
    exact pop_pending_span_fst env sid t st' s' hl'

/-- C9: `register_session` on an already-registered id unconditionally
overwrites the record with a fresh one: `pending_spans` is reset to the
empty list, `created_at` is reset to the current time, and the status
becomes `active`, whatever the previous record held. -/
theorem register_overwrites_existing (hash : String → String) (env : Env)
    (sid tid : String) (gb : Option String) (st : RegistryState)
    (old : SessionRecord) (_hold : loadSession st sid = some old) :
    loadSession (register_session hash env sid tid gb st).1 sid
      = some (mkRegisterRecord hash env sid tid gb)
    ∧ (mkRegisterRecord hash env sid tid gb).pending_spans = []
    ∧ (mkRegisterRecord hash env sid tid gb).created_at = env.now
    ∧ (mkRegisterRecord hash env sid tid gb).status = "active" := by
  refine ⟨?_, rfl, rfl, rfl⟩
  simp [register_session, loadSession, alistLookup_insert_self]

/-- C10: a `pop_pending_span` that finds no entry with a matching
`tool_name` returns absent and leaves everything untouched: the resulting
state is exactly the input state (`pending_spans` unchanged,
`last_activity` not bumped) and the event trace holds no store write, only
the lock acquire/release pair. -/
theorem pop_no_match_is_pure_miss (env : Env) (sid t : String)
    (st : RegistryState) (s : SessionRecord)
    (hload : loadSession st sid = some s)
    (hnone : ∀ p ∈ s.pending_spans, p.tool_name ≠ t) :
    pop_pending_span env sid t st = (none, st, [.acquire sid, .release sid]) := by
  simp [pop_pending_span, hload, popFirstMatching_none t _ hnone]

/-- C2 witness at a concrete input. -/
theorem pending_spans_fifo_witness :
    (loadSession ⟨[("s1", ⟨"s1", "t1", 0, 0, "/a", "h", 7, none, "active", []⟩)], ⟨[], []⟩⟩ "s1"
       = some ⟨"s1", "t1", 0, 0, "/a", "h", 7, none, "active", []⟩) ∧
    (("a1" : String) ≠ "b1") ∧
    ((pop_pending_span ⟨"/a", 7, 3⟩ "s1" "Bash"
        (add_pending_span ⟨"/a", 7, 3⟩ "s1" "b1" "Bash"
          (add_pending_span ⟨"/a", 7, 3⟩ "s1" "a1" "Bash"
            ⟨[("s1", ⟨"s1", "t1", 0, 0, "/a", "h", 7, none, "active", []⟩)], ⟨[], []⟩⟩).1).1).1.map
          PendingSpan.span_id = some "a1") := by
  have h := pending_spans_fifo ⟨"/a", 7, 3⟩ "s1" "Bash" "a1" "b1"
    ⟨[("s1", ⟨"s1", "t1", 0, 0, "/a", "h", 7, none, "active", []⟩)], ⟨[], []⟩⟩
    ⟨"s1", "t1", 0, 0, "/a", "h", 7, none, "active", []⟩
    (by decide) (by simp) (by decide)
  exact ⟨by decide, by decide, h.1⟩

/-- C9 witness at a concrete input. -/
theorem register_overwrites_existing_witness :
    (loadSession ⟨[("s1", ⟨"s1", "t0", 0, 0, "/a", "h", 7, none, "stopped",
        [⟨"sp", "Bash", 0⟩]⟩)], ⟨[], []⟩⟩ "s1"
      = some ⟨"s1", "t0", 0, 0, "/a", "h", 7, none, "stopped", [⟨"sp", "Bash", 0⟩]⟩) ∧
    loadSession (register_session (fun s => s) ⟨"/a", 9, 4⟩ "s1" "t1" none
        ⟨[("s1", ⟨"s1", "t0", 0, 0, "/a", "h", 7, none, "stopped",
          [⟨"sp", "Bash", 0⟩]⟩)], ⟨[], []⟩⟩).1 "s1"
      = some (mkRegisterRecord (fun s => s) ⟨"/a", 9, 4⟩ "s1" "t1" none) := by
  have h := register_overwrites_existing (fun s => s) ⟨"/a", 9, 4⟩ "s1" "t1" none
    ⟨[("s1", ⟨"s1", "t0", 0, 0, "/a", "h", 7, none, "stopped", [⟨"sp", "Bash", 0⟩]⟩)], ⟨[], []⟩⟩
    ⟨"s1", "t0", 0, 0, "/a", "h", 7, none, "stopped", [⟨"sp", "Bash", 0⟩]⟩ (by decide)
  exact ⟨by decide, h.1⟩

/-- C10 witness at a concrete input. -/
theorem pop_no_match_is_pure_miss_witness :
    (loadSession ⟨[("s1", ⟨"s1", "t1", 0, 2, "/a", "h", 7, none, "active",
        [⟨"sp", "Read", 1⟩]⟩)], ⟨[], []⟩⟩ "s1"
      = some ⟨"s1", "t1", 0, 2, "/a", "h", 7, none, "active", [⟨"sp", "Read", 1⟩]⟩) ∧
    pop_pending_span ⟨"/a", 7, 9⟩ "s1" "Bash"
        ⟨[("s1", ⟨"s1", "t1", 0, 2, "/a", "h", 7, none, "active",
          [⟨"sp", "Read", 1⟩]⟩)], ⟨[], []⟩⟩
      = (none, ⟨[("s1", ⟨"s1", "t1", 0, 2, "/a", "h", 7, none, "active",
          [⟨"sp", "Read", 1⟩]⟩)], ⟨[], []⟩⟩, [.acquire "s1", .release "s1"]) := by
  have h := pop_no_match_is_pure_miss ⟨"/a", 7, 9⟩ "s1" "Bash"
    ⟨[("s1", ⟨"s1", "t1", 0, 2, "/a", "h", 7, none, "active", [⟨"sp", "Read", 1⟩]⟩)], ⟨[], []⟩⟩
    ⟨"s1", "t1", 0, 2, "/a", "h", 7, none, "active", [⟨"sp", "Read", 1⟩]⟩
    (by decide) (by decide)
  exact ⟨by decide, h⟩

/-- C7: lock acquisition in `_acquire_lock` carries no bound at all.  The
claim asserts a bounded wait; against a schedule on which the lock never
becomes free (a peer hung while holding it), the blocking `flock` call has
not completed after any finite number of polls, and the code has no
timeout or abandonment path to take instead. -/
theorem acquire_lock_no_bounded_wait (start fuel : Nat) :
    acquireLockFuel (fun _ => false) start fuel = none := by
  induction fuel generalizing start with
  | zero => rfl
  | succ n ih => simp [acquireLockFuel, ih]

theorem pytryTo_never {α : Type} (m : TraceM α) (fb : α) (ts : TState) :
    neverRaises (pytryTo m fb ts) := by
  cases h : m ts with
  | ok r => simp [pytryTo, h, neverRaises]
  | error e => simp [pytryTo, h, neverRaises]

theorem pure_never {α : Type} (a : α) (ts : TState) :
    neverRaises ((pure a : TraceM α) ts) :=
  trivial

/-- C4: every public Trace Coordinator operation wraps its whole body (all
backend requests, store accesses, and lock acquisitions) in
`try/except Exception` and answers with the `"noop"` sentinel (or simply
returns) when anything raises: whatever subset of external calls fails —
the failure oracle is universally quantified — no exception ever reaches
the invoking process. -/
theorem tracer_ops_never_raise (o : Oracle) (hash : String → String) (env : Env)
    (enabled : Bool) (sid source tid spanId toolName : String)
    (gb : Option String) (ts : TState) :
    neverRaises (tracer_start_session_trace o hash env enabled sid source tid gb ts) ∧
    neverRaises (tracer_log_user_prompt o env enabled sid spanId ts) ∧
    neverRaises (tracer_start_tool_span o hash env enabled toolName spanId ts) ∧
    neverRaises (tracer_end_tool_span o hash env enabled toolName ts) ∧
    neverRaises (tracer_end_session_trace o env enabled sid ts) ∧
    neverRaises (tracer_flush o enabled ts) := by
  cases enabled
  · exact ⟨pure_never _ _, pure_never _ _, pure_never _ _, pure_never _ _,
      pure_never _ _, pure_never _ _⟩
  · exact ⟨pytryTo_never _ _ _, pytryTo_never _ _ _, pytryTo_never _ _ _,
      pytryTo_never _ _ _, pytryTo_never _ _ _, pytryTo_never _ _ _⟩

/-- A sample record used by the concrete lock-trace scenarios. -/
def sampleRecord (sid tid status : String) (pp la : Nat) : SessionRecord :=
  { session_id := sid, trace_id := tid, created_at := 0, last_activity := la,
    cwd := "/a", cwd_hash := "/a", ppid := pp, git_branch := none,
    status := status, pending_spans := [] }

/-- C6: the index lock is NOT released on the error path of
`reactivate_session`.  The release sits inside the `try` block rather than
a `finally`; when updating the index raises (here: `_save_index` failing,
e.g. a `TypeError` out of `json.dump` on a corrupt index), the handler
swallows the exception, the function still returns the trace id, and the
`"index"` lock is left held at the end of the trace. -/
theorem reactivate_index_lock_leak :
    (heldList (reactivate_session (fun s => s) ⟨"/b", 200, 10⟩ true "s1"
      ⟨[("s1", sampleRecord "s1" "t1" "stopped" 100 5)], ⟨[], []⟩⟩).2.2 = ["index"]) ∧
    ((reactivate_session (fun s => s) ⟨"/b", 200, 10⟩ true "s1"
      ⟨[("s1", sampleRecord "s1" "t1" "stopped" 100 5)], ⟨[], []⟩⟩).1 = some "t1") := by
  decide

instance neverTwoHeldDecidable (tr : List Event) : Decidable (neverTwoHeld tr) :=
  inferInstanceAs (Decidable (∀ pre ∈ tr.inits, (heldList pre).length ≤ 1))

/-- C3 counterexample: the claim that the session lock and the index lock
are never held simultaneously fails on `reactivate_session`, which
acquires the `"index"` lock while still holding the session lock, even on
its ordinary success path. -/
theorem lock_domains_counterexample :
    ¬ neverTwoHeld (reactivate_session (fun s => s) ⟨"/b", 200, 10⟩ false "s1"
      ⟨[("s1", sampleRecord "s1" "t1" "stopped" 100 5)], ⟨[], []⟩⟩).2.2 := by
  decide

theorem register_trace_never_two (sid : String) :
    neverTwoHeld [Event.acquire sid, .saveSession sid, .release sid,
      .acquire "index", .saveIndex, .release "index"] := by
  intro pre hpre
  simp [List.inits] at hpre
  rcases hpre with rfl | rfl | rfl | rfl | rfl | rfl | rfl <;>
    simp [heldList, removeOne]

theorem register_trace_ordered (sid : String) :
    sessionBeforeIndex [Event.acquire sid, .saveSession sid, .release sid,
      .acquire "index", .saveIndex, .release "index"] := by
  intro q hq n hlast
  simp [List.inits] at hq
  rcases hq with rfl | rfl | rfl | rfl | rfl | rfl | rfl <;>
    simp_all [heldList, removeOne]

theorem reactivate_trace_ordered_missing (sid : String) :
    sessionBeforeIndex [Event.acquire sid, .release sid] := by
  intro q hq n hlast
  simp [List.inits] at hq
  rcases hq with rfl | rfl | rfl <;> simp_all [heldList, removeOne]

theorem reactivate_trace_ordered_fail (sid : String) (hsid : sid ≠ "index") :
    sessionBeforeIndex [Event.acquire sid, .saveSession sid,
      .acquire "index", .release sid] := by
  have hsid' : ("index" : String) ≠ sid := fun h => hsid h.symm
  intro q hq n hlast
  simp [List.inits] at hq
  rcases hq with rfl | rfl | rfl | rfl | rfl
  · simp at hlast
  · simp at hlast
    subst hlast
    simp [heldList]
  · simp at hlast
  · simp at hlast
    subst hlast
    simp [heldList, hsid']
  · simp at hlast

theorem reactivate_trace_ordered_ok (sid : String) (hsid : sid ≠ "index") :
    sessionBeforeIndex [Event.acquire sid, .saveSession sid, .acquire "index",
      .saveIndex, .release "index", .release sid] := by
  have hsid' : ("index" : String) ≠ sid := fun h => hsid h.symm
  intro q hq n hlast
  simp [List.inits] at hq
  rcases hq with rfl | rfl | rfl | rfl | rfl | rfl | rfl
  · simp at hlast
  · simp at hlast
    subst hlast
    simp [heldList]
  · simp at hlast
  · simp at hlast
    subst hlast
    simp [heldList, hsid']
  · simp at hlast
  · simp at hlast
  · simp at hlast

/-- C3 (amended): `register_session` never holds the session lock and the
index lock simultaneously; `reactivate_session`, however, acquires the
index lock while still holding the session lock.  What does hold for both
operations is a fixed acquisition order — the index lock is never already
held when any lock is acquired, so the only nesting ever seen is
session-then-index and cross-domain deadlock still cannot arise; and the
nesting in `reactivate_session` is real: whenever the record exists, its
trace reaches a point where two locks are held at once. -/
theorem lock_acquisition_discipline (hash : String → String) (env : Env)
    (sid tid : String) (gb : Option String) (st : RegistryState) (flag : Bool)
    (hsid : sid ≠ "index") :
    neverTwoHeld (register_session hash env sid tid gb st).2 ∧
    sessionBeforeIndex (register_session hash env sid tid gb st).2 ∧
    sessionBeforeIndex (reactivate_session hash env flag sid st).2.2 ∧
    (∀ s, loadSession st sid = some s →
      ∃ q ∈ (reactivate_session hash env flag sid st).2.2.inits,
        2 ≤ (heldList q).length) := by
  refine ⟨register_trace_never_two sid, register_trace_ordered sid, ?_, ?_⟩
  · cases hl : loadSession st sid with
    | none =>
        have htr : (reactivate_session hash env flag sid st).2.2 =
            [Event.acquire sid, .release sid] := by
          simp [reactivate_session, hl]
        rw [htr]
        exact reactivate_trace_ordered_missing sid
    | some s =>
        cases flag with
        | true =>
            have htr : (reactivate_session hash env true sid st).2.2 =
                [Event.acquire sid, .saveSession sid, .acquire "index",
                 .release sid] := by
              simp [reactivate_session, hl]
            rw [htr]
            exact reactivate_trace_ordered_fail sid hsid
        | false =>
            have htr : (reactivate_session hash env false sid st).2.2 =
                [Event.acquire sid, .saveSession sid, .acquire "index",
                 .saveIndex, .release "index", .release sid] := by
              simp [reactivate_session, hl]
            rw [htr]
            exact reactivate_trace_ordered_ok sid hsid
  · intro s hl
    refine ⟨[Event.acquire sid, .saveSession sid, .acquire "index"], ?_, ?_⟩
    · cases flag with
      | true =>
          have htr : (reactivate_session hash env true sid st).2.2 =
              [Event.acquire sid, .saveSession sid, .acquire "index",
               .release sid] := by
            simp [reactivate_session, hl]
          rw [htr]
          simp [List.inits]
      | false =>
          have htr : (reactivate_session hash env false sid st).2.2 =
              [Event.acquire sid, .saveSession sid, .acquire "index",
               .saveIndex, .release "index", .release sid] := by
            simp [reactivate_session, hl]
          rw [htr]
          simp [List.inits]
    · simp [heldList]

/-- C3 witness: the amended discipline at a concrete input. -/
theorem lock_acquisition_discipline_witness :
    (("s1" : String) ≠ "index") ∧
    neverTwoHeld (register_session (fun s => s) ⟨"/a", 7, 3⟩ "s1" "t1" none
      ⟨[], ⟨[], []⟩⟩).2 ∧
    sessionBeforeIndex (reactivate_session (fun s => s) ⟨"/a", 7, 3⟩ false "s1"
      ⟨[("s1", sampleRecord "s1" "t1" "stopped" 9 1)], ⟨[], []⟩⟩).2.2 := by
  have h := lock_acquisition_discipline (fun s => s) ⟨"/a", 7, 3⟩ "s1" "t1" none
    ⟨[("s1", sampleRecord "s1" "t1" "stopped" 9 1)], ⟨[], []⟩⟩ false (by decide)
  have h2 := lock_acquisition_discipline (fun s => s) ⟨"/a", 7, 3⟩ "s1" "t1" none
    ⟨[], ⟨[], []⟩⟩ false (by decide)
  exact ⟨by decide, h2.1, h.2.2.1⟩

/-- The identity stand-in for `_hash_cwd` used by concrete scenarios (the
claims never depend on properties of the MD5 prefix beyond it being a
function of the path). -/
def idHash : String → String := fun s => s

/-- The context of the C1 scenario: working directory `/a`, parent process
100, clock 5. -/
def c1Env : Env := ⟨"/a", 100, 5⟩

/-- C1 counterexample: starting from the empty store, register `"s0"` and
then `"s1"` from the same working directory and parent process (twice the
same session-start context, a perfectly ordinary sequence); a
`find_session_for_tool` from that same context now returns the record of
`"s0"`, not of the just-registered `"s1"`: the PPID discrimination loop
returns the first active match in bucket order. -/
theorem find_after_register_counterexample :
    ((find_session_for_tool idHash c1Env
        (register_session idHash c1Env "s1" "t1" none
          (register_session idHash c1Env "s0" "t0" none ⟨[], ⟨[], []⟩⟩).1).1).map
       SessionRecord.session_id = some "s0") ∧
    ("s0" : String) ≠ "s1" := by
  decide

theorem activeOf_entry_iff (st : RegistryState) (sid' : String) (x : SessionRecord) :
    (match loadSession st sid' with
     | some s => if s.status = "active" then some s else none
     | none => none) = some x ↔ loadSession st sid' = some x ∧ x.status = "active" := by
  cases h : loadSession st sid' with
  | none => simp
  | some s =>
      by_cases hs : s.status = "active"
      · simp only [hs, if_true, Option.some.injEq]
        constructor
        · rintro rfl
          exact ⟨rfl, hs⟩
        · rintro ⟨h1, _⟩
          exact h1
      · simp only [if_neg hs]
        constructor
        · intro h1
          exact Option.noConfusion h1
        · rintro ⟨h1, h2⟩
          injection h1 with h1
          subst h1
          exact absurd h2 hs

theorem mem_activeOf (st : RegistryState) (ids : List String) (x : SessionRecord) :
    x ∈ activeOf st ids ↔
      ∃ sid' ∈ ids, loadSession st sid' = some x ∧ x.status = "active" := by
  simp only [activeOf, List.mem_filterMap, activeOf_entry_iff]

theorem find_session_via_bucket (hash : String → String) (env : Env)
    (st : RegistryState) (bucket : List String) (fresh : SessionRecord)
    (hlk : alistLookup (hash env.cwd) st.index.cwd_to_sessions = some bucket)
    (hmem : fresh ∈ activeOf st bucket)
    (huniq : ∀ x ∈ activeOf st bucket, (x.ppid == env.ppid) = true → x = fresh)
    (hppid : fresh.ppid = env.ppid) :
    find_session_for_tool hash env st = some fresh := by
  have hbne : bucket ≠ [] := by
    intro h
    rw [h] at hmem
    simp [activeOf] at hmem
  have hbe : bucket.isEmpty = false := by
    cases bucket with
    | nil => exact absurd rfl hbne
    | cons a l => rfl
  have hane : (activeOf st bucket).isEmpty = false := by
    cases ha : activeOf st bucket with
    | nil => rw [ha] at hmem; simp at hmem
    | cons a l => rfl
  simp only [find_session_for_tool, hlk, Option.getD_some, hbe, Bool.false_eq_true,
    if_false, hane]
  by_cases hlen : (activeOf st bucket).length = 1
  · obtain ⟨a, ha⟩ := List.length_eq_one.mp hlen
    rw [ha] at hmem
    simp at hmem
    subst hmem
    simp [hlen, ha]
  · have hfind : (activeOf st bucket).find? (fun s => s.ppid == env.ppid) = some fresh :=
      find_unique _ _ _ hmem (by simp [hppid]) huniq
    simp [hlen, hfind]

/-- C1 (amended): `register_session` followed by `find_session_for_tool`
from the same working directory and parent process returns the record just
registered, provided no other session already listed in the index bucket
for that cwd-hash has an active record with the same ppid (otherwise the
PPID discrimination loop can return the earlier-listed session instead —
see the counterexample). -/
theorem find_after_register_same_context (hash : String → String) (env : Env)
    (sid tid : String) (gb : Option String) (st : RegistryState)
    (_hval : sid ≠ "index")
    (hnc : ∀ sid' ∈ ((alistLookup (hash env.cwd) st.index.cwd_to_sessions).getD []),
      sid' ≠ sid → ∀ s', loadSession st sid' = some s' → s'.status = "active" →
        s'.ppid ≠ env.ppid) :
    find_session_for_tool hash env (register_session hash env sid tid gb st).1
      = some (mkRegisterRecord hash env sid tid gb) := by
  set fresh := mkRegisterRecord hash env sid tid gb with hfdef
  set st' := (register_session hash env sid tid gb st).1 with hst'
  set bucket := (alistLookup (hash env.cwd) st.index.cwd_to_sessions).getD [] with hbdef
  set bucket' := if sid ∈ bucket then bucket else bucket ++ [sid] with hbdef'
  have hidx : st'.index.cwd_to_sessions
      = alistInsert (hash env.cwd) bucket' st.index.cwd_to_sessions := by
    rw [hst']
    rfl
  have hlk : alistLookup (hash env.cwd) st'.index.cwd_to_sessions = some bucket' := by
    rw [hidx]
    exact alistLookup_insert_self _ _ _
  have hsess : st'.sessions = alistInsert sid fresh st.sessions := by
    rw [hst']
    rfl
  have hloadself : loadSession st' sid = some fresh := by
    show alistLookup sid st'.sessions = some fresh
    rw [hsess]
    exact alistLookup_insert_self _ _ _
  have hloadother : ∀ x, x ≠ sid → loadSession st' x = loadSession st x := by
    intro x hx
    show alistLookup x st'.sessions = alistLookup x st.sessions
    rw [hsess]
    exact alistLookup_insert_ne sid x fresh st.sessions hx
  have hmemsid : sid ∈ bucket' := by
    rw [hbdef']
    by_cases h : sid ∈ bucket <;> simp [h]
  have hmem : fresh ∈ activeOf st' bucket' :=
    (mem_activeOf st' bucket' fresh).mpr ⟨sid, hmemsid, hloadself, rfl⟩
  have huniq : ∀ x ∈ activeOf st' bucket', (x.ppid == env.ppid) = true → x = fresh := by
    intro x hx hp
    obtain ⟨sid', hsid'mem, hload', hstat⟩ := (mem_activeOf st' bucket' x).mp hx
    by_cases hs : sid' = sid
    · subst hs
      rw [hloadself] at hload'
      exact ((Option.some.injEq ..).mp hload').symm
    · have hsb : sid' ∈ bucket := by
        rw [hbdef'] at hsid'mem
        by_cases h : sid ∈ bucket
        · rwa [if_pos h] at hsid'mem
        · rw [if_neg h] at hsid'mem
          rcases List.mem_append.mp hsid'mem with h1 | h1
          · exact h1
          · simp at h1
            exact absurd h1 hs
      rw [hloadother sid' hs] at hload'
      have hne := hnc sid' hsb hs x hload' hstat
      rw [beq_iff_eq] at hp
      exact absurd hp hne
  exact find_session_via_bucket hash env st' bucket' fresh hlk hmem huniq rfl

/-- C1 witness: the amended round trip at a concrete input (empty store,
so the no-conflict hypothesis holds trivially). -/
theorem find_after_register_same_context_witness :
    (("s1" : String) ≠ "index") ∧
    find_session_for_tool idHash c1Env
        (register_session idHash c1Env "s1" "t1" none ⟨[], ⟨[], []⟩⟩).1
      = some (mkRegisterRecord idHash c1Env "s1" "t1" none) := by
  refine ⟨by decide, ?_⟩
  exact find_after_register_same_context idHash c1Env "s1" "t1" none ⟨[], ⟨[], []⟩⟩
    (by decide) (by simp [alistLookup])

/-- A 501-character string, one character over the 500 threshold. -/
def longA : String := String.mk (List.replicate 501 'a')

set_option maxRecDepth 10000 in
/-- C8 counterexample: the allow-list of `_sanitize_input` contains
`file_path`, not `path`.  A 501-character string under the key `"path"` is
replaced by the `"[501 chars]"` placeholder instead of being preserved
verbatim up to the threshold (its first 500 characters), so the claim's
allow-list is wrong as stated. -/
theorem sanitize_allowlist_counterexample :
    (sanitize_input "Read" (.vdict [("path", .vstr longA)])
      = .vdict [("path", .vstr "[501 chars]")]) ∧
    ("[501 chars]" : String) ≠ pyTake longA 500 := by
  constructor
  · rfl
  · decide

/-- The field-level behaviour of `_sanitize_input` on one dict entry (the
body of its loop, named so theorems can speak about single fields). -/
def sanitizeInputField (key : String) (value : PyVal) : PyVal :=
  if key ∈ allowListKeys then
    (if value.truthy then PyVal.vstr (pyTake (pyStr value) 500) else PyVal.vnull)
  else if key = "content" then
    (let contentLen := if value.truthy then pyLen (pyStr value) else 0
     if contentLen > 200 then PyVal.vstr (placeholderChars contentLen) else value)
  else
    match value with
    | .vstr s =>
        if pyLen s > 500 then PyVal.vstr (placeholderChars (pyLen s)) else value
    | .vdict _ =>
        let ser := jsonDumps value
        if pyLen ser > 500 then PyVal.vstr (placeholderJsonChars (pyLen ser)) else value
    | .vlist _ =>
        let ser := jsonDumps value
        if pyLen ser > 500 then PyVal.vstr (placeholderJsonChars (pyLen ser)) else value
    | _ => value

/-- The field-level behaviour of `_sanitize_output` on one dict entry. -/
def sanitizeOutputField (v : PyVal) : PyVal :=
  match v with
  | .vstr s => if pyLen s > 500 then PyVal.vstr (placeholderChars (pyLen s)) else v
  | _ => v

/-- C8 (amended): the sanitization policy as the code implements it.  For
tool input (a dict): each field is rewritten independently; the allow-list
is `command`, `file_path`, `pattern`, `query`, `url` (not `path`), and
those fields are stringified and preserved verbatim up to 500 characters
(falsy values become `None`); a truthy `content` field whose text exceeds
200 characters becomes the `"[<n> chars]"` placeholder; any other string
field longer than 500 characters becomes `"[<n> chars]"`, and one of at
most 500 characters is kept verbatim; dict/list fields are serialized to
JSON and replaced by a `"[<n> chars JSON]"` placeholder when the
serialization exceeds 500 characters.  For tool output: a string result
longer than 1000 characters becomes the placeholder, shorter ones pass
through; in a dict result exactly the string fields longer than 500
characters are replaced while every other field — nested structures
included — is kept whole. -/
theorem sanitize_characterization :
    (∀ tn entries, sanitize_input tn (.vdict entries)
        = .vdict (entries.map fun kv => (kv.1, sanitizeInputField kv.1 kv.2))) ∧
    (∀ key s, key ∈ allowListKeys → s ≠ "" →
        sanitizeInputField key (.vstr s) = .vstr (pyTake s 500)) ∧
    (∀ key s, key ∉ allowListKeys → key ≠ "content" → pyLen s > 500 →
        sanitizeInputField key (.vstr s) = .vstr (placeholderChars (pyLen s))) ∧
    (∀ key s, key ∉ allowListKeys → key ≠ "content" → pyLen s ≤ 500 →
        sanitizeInputField key (.vstr s) = .vstr s) ∧
    (∀ s, s ≠ "" → pyLen s > 200 →
        sanitizeInputField "content" (.vstr s) = .vstr (placeholderChars (pyLen s))) ∧
    (∀ key d, key ∉ allowListKeys → key ≠ "content" →
        pyLen (jsonDumps (PyVal.vdict d)) > 500 →
        sanitizeInputField key (.vdict d)
          = .vstr (placeholderJsonChars (pyLen (jsonDumps (PyVal.vdict d))))) ∧
    (∀ key l, key ∉ allowListKeys → key ≠ "content" →
        pyLen (jsonDumps (PyVal.vlist l)) > 500 →
        sanitizeInputField key (.vlist l)
          = .vstr (placeholderJsonChars (pyLen (jsonDumps (PyVal.vlist l))))) ∧
    (∀ tn s, pyLen s > 1000 →
        sanitize_output tn (.vstr s) = .vstr (placeholderChars (pyLen s))) ∧
    (∀ tn s, pyLen s ≤ 1000 → sanitize_output tn (.vstr s) = .vstr s) ∧
    (∀ tn entries, sanitize_output tn (.vdict entries)
        = .vdict (entries.map fun kv => (kv.1, sanitizeOutputField kv.2))) ∧
    (∀ s, pyLen s > 500 →
        sanitizeOutputField (.vstr s) = .vstr (placeholderChars (pyLen s))) ∧
    (∀ s, pyLen s ≤ 500 → sanitizeOutputField (.vstr s) = .vstr s) ∧
    (∀ v, (∀ s, v ≠ .vstr s) → sanitizeOutputField v = v) := by
  refine ⟨?_, ?_, ?_, ?_, ?_, ?_, ?_, ?_, ?_, ?_, ?_, ?_, ?_⟩
  · intro tn entries
    rfl
  · intro key s hk hs
    simp [sanitizeInputField, hk, PyVal.truthy, hs, pyStr]
  · intro key s hk hc hlen
    simp [sanitizeInputField, hk, hc, hlen]
  · intro key s hk hc hlen
    simp [sanitizeInputField, hk, hc, Nat.not_lt.mpr hlen]
  · intro s hs hlen
    have hcna : ("content" : String) ∉ allowListKeys := by decide
    simp [sanitizeInputField, hcna, PyVal.truthy, hs, pyStr, hlen]
  · intro key d hk hc hlen
    simp [sanitizeInputField, hk, hc, hlen]
  · intro key l hk hc hlen
    simp [sanitizeInputField, hk, hc, hlen]
  · intro tn s hlen
    simp [sanitize_output, hlen]
  · intro tn s hlen
    simp [sanitize_output, Nat.not_lt.mpr hlen]
  · intro tn entries
    rfl
  · intro s hlen
    simp [sanitizeOutputField, hlen]
  · intro s hlen
    simp [sanitizeOutputField, Nat.not_lt.mpr hlen]
  · intro v hv
    cases v with
    | vstr s => exact absurd rfl (hv s)
    | vnull => rfl
    | vbool b => rfl
    | vint n => rfl
    | vlist xs => rfl
    | vdict kvs => rfl

set_option maxRecDepth 10000 in
/-- C8 witness: the amended characterization at concrete inputs. -/
theorem sanitize_characterization_witness :
    (sanitizeInputField "command" (.vstr "ls -l") = .vstr (pyTake "ls -l" 500)) ∧
    (sanitizeInputField "notes" (.vstr longA) = .vstr (placeholderChars (pyLen longA))) ∧
    (sanitizeInputField "notes" (.vstr "ok") = .vstr "ok") ∧
    (sanitize_output "Bash" (.vstr "done") = .vstr "done") := by
  have h := sanitize_characterization
  exact ⟨h.2.1 "command" "ls -l" (by decide) (by decide),
         h.2.2.1 "notes" longA (by decide) (by decide) (by decide),
         h.2.2.2.1 "notes" "ok" (by decide) (by decide) (by decide),
         h.2.2.2.2.2.2.2.2.1 "Bash" "done" (by decide)⟩

/-- The per-entry effect of the first zero-threshold sweep: an `active`
record is rewritten to `stale` with `last_activity` bumped; anything else
is dropped from the store by the sweep. -/
def staleMark (now : Nat) (ks : String × SessionRecord) : Option (String × SessionRecord) :=
  if ks.2.status = "active" then
    some (ks.1, { ks.2 with status := "stale", last_activity := now })
  else none

/-- The ids a zero-threshold sweep deletes: those of `stopped` or `stale`
records. -/
def removedIds (l : List (String × SessionRecord)) : List String :=
  (l.filter fun ks => ks.2.status == "stopped" || ks.2.status == "stale").map Prod.fst

/-- Sequential purging of a list of ids from the index. -/
def purgeFold (idx : IndexRecord) (ids : List String) : IndexRecord :=
  ids.foldl (fun i sid => purgeSessionFromIndex sid i) idx

/-- A session id absent from both index maps. -/
def notInIndex (sid : String) (idx : IndexRecord) : Prop :=
  (∀ hl ∈ idx.cwd_to_sessions, sid ∉ hl.2) ∧ (∀ ps ∈ idx.ppid_to_session, ps.2 ≠ sid)

theorem cleanup_step_active_state (env : Env) (k : String) (s : SessionRecord)
    (pre suf : List (String × SessionRecord)) (idx : IndexRecord)
    (hkpre : ∀ e ∈ pre, e.1 ≠ k) (hsid : s.session_id = k)
    (hact : s.status = "active") (hage : 0 < env.now - s.last_activity) :
    cleanup_step env 0 ⟨pre ++ (k, s) :: suf, idx⟩ k
      = ⟨pre ++ (k, { s with status := "stale", last_activity := env.now }) :: suf, idx⟩ := by
  have hload0 : loadSession ⟨pre ++ (k, s) :: suf, idx⟩ k = some s := by
    show alistLookup k (pre ++ (k, s) :: suf) = some s
    rw [alistLookup_append_left_none k pre _ hkpre]
    simp [alistLookup]
  have hins : ∀ V : SessionRecord,
      alistInsert k V (pre ++ (k, s) :: suf) = pre ++ (k, V) :: suf :=
    fun V => alistInsert_append k V s pre suf hkpre
  simp [cleanup_step, hload0, hact, hage, hsid, update_session, hins]

theorem cleanup_step_remove_state (env : Env) (k : String) (s : SessionRecord)
    (pre suf : List (String × SessionRecord)) (idx : IndexRecord)
    (hkpre : ∀ e ∈ pre, e.1 ≠ k) (hsid : s.session_id = k)
    (hstop : s.status = "stopped" ∨ s.status = "stale")
    (hage : 0 < env.now - s.last_activity) :
    cleanup_step env 0 ⟨pre ++ (k, s) :: suf, idx⟩ k
      = ⟨pre ++ suf, purgeSessionFromIndex k idx⟩ := by
  have hload0 : loadSession ⟨pre ++ (k, s) :: suf, idx⟩ k = some s := by
    show alistLookup k (pre ++ (k, s) :: suf) = some s
    rw [alistLookup_append_left_none k pre _ hkpre]
    simp [alistLookup]
  have hers : alistErase k (pre ++ (k, s) :: suf) = pre ++ suf :=
    alistErase_append k s pre suf hkpre
  rcases hstop with h | h <;>
    simp [cleanup_step, hload0, h, hage, hsid, remove_session, hers]

theorem cleanup_zero_go (env : Env) (suf : List (String × SessionRecord)) :
    ∀ (pre : List (String × SessionRecord)) (idx : IndexRecord),
    (∀ ks ∈ suf, ks.2.session_id = ks.1) →
    (∀ ks ∈ suf, ks.2.last_activity < env.now) →
    (∀ ks ∈ suf, ks.2.status = "active" ∨ ks.2.status = "stopped" ∨ ks.2.status = "stale") →
    (((pre ++ suf).map Prod.fst).Nodup) →
    (suf.map Prod.fst).foldl (cleanup_step env 0) ⟨pre ++ suf, idx⟩
      = ⟨pre ++ suf.filterMap (staleMark env.now), purgeFold idx (removedIds suf)⟩ := by
  induction suf with
  | nil =>
      intro pre idx _ _ _ _
      simp [staleMark, removedIds, purgeFold]
  | cons ks suf ih =>
      obtain ⟨k, s⟩ := ks
      intro pre idx hwfid hold hstat hnod
      have hnodsplit : (pre.map Prod.fst).Nodup ∧ ((k :: suf.map Prod.fst) : List String).Nodup ∧
          (pre.map Prod.fst).Disjoint (k :: suf.map Prod.fst) := by
        rw [List.map_append, List.map_cons] at hnod
        exact List.nodup_append.mp hnod
      have hkpre : ∀ e ∈ pre, e.1 ≠ k := by
        intro e he heq
        exact hnodsplit.2.2 (heq ▸ List.mem_map_of_mem Prod.fst he)
          (List.mem_cons_self _ _)
      have hage : 0 < env.now - s.last_activity :=
        Nat.sub_pos_of_lt (hold (k, s) (List.mem_cons_self _ _))
      have hsid : s.session_id = k := hwfid (k, s) (List.mem_cons_self _ _)
      have hwfid' : ∀ ks ∈ suf, ks.2.session_id = ks.1 :=
        fun x hx => hwfid x (List.mem_cons_of_mem _ hx)
      have hold' : ∀ ks ∈ suf, ks.2.last_activity < env.now :=
        fun x hx => hold x (List.mem_cons_of_mem _ hx)
      have hstat' : ∀ ks ∈ suf,
          ks.2.status = "active" ∨ ks.2.status = "stopped" ∨ ks.2.status = "stale" :=
        fun x hx => hstat x (List.mem_cons_of_mem _ hx)
      simp only [List.map_cons, List.foldl_cons]
      rcases hstat (k, s) (List.mem_cons_self _ _) with hact | hstop
      · -- active entry: marked stale in place
        replace hact : s.status = "active" := hact
        rw [cleanup_step_active_state env k s pre suf idx hkpre hsid hact hage]
        have hnod2 : (((pre ++ [(k, { s with status := "stale", last_activity := env.now })])
            ++ suf).map Prod.fst).Nodup := by
          have hkeys : ((pre ++ [(k, { s with status := "stale", last_activity := env.now })])
              ++ suf).map Prod.fst = (pre ++ (k, s) :: suf).map Prod.fst := by
            simp
          rw [hkeys]
          exact hnod
        have := ih (pre ++ [(k, { s with status := "stale", last_activity := env.now })])
          idx hwfid' hold' hstat' hnod2
        rw [show (pre ++ [(k, { s with status := "stale", last_activity := env.now })]) ++ suf
            = pre ++ (k, { s with status := "stale", last_activity := env.now }) :: suf
          by simp] at this
        rw [this]
        have hmark : staleMark env.now (k, s)
            = some (k, { s with status := "stale", last_activity := env.now }) := by
          simp [staleMark, hact]
        have hrem : removedIds ((k, s) :: suf) = removedIds suf := by
          simp [removedIds, List.filter_cons, hact]
        rw [hrem]
        simp [List.filterMap_cons, hmark]
      · -- stopped or stale entry: removed, index purged
        replace hstop : s.status = "stopped" ∨ s.status = "stale" := hstop
        rw [cleanup_step_remove_state env k s pre suf idx hkpre hsid hstop hage]
        have hnod2 : ((pre ++ suf).map Prod.fst).Nodup := by
          rw [List.map_append]
          rw [List.map_append, List.map_cons] at hnod
          rcases List.nodup_append.mp hnod with ⟨h1, h2, h3⟩
          exact List.nodup_append.mpr
            ⟨h1, (List.nodup_cons.mp h2).2,
             fun a ha hb => h3 ha (List.mem_cons_of_mem _ hb)⟩
        have := ih pre (purgeSessionFromIndex k idx) hwfid' hold' hstat' hnod2
        rw [this]
        have hmark : staleMark env.now (k, s) = none := by
          rcases hstop with h | h <;> simp [staleMark, h]
        have hrem : removedIds ((k, s) :: suf) = k :: removedIds suf := by
          rcases hstop with h | h <;> simp [removedIds, List.filter_cons, h]
        rw [hrem]
        simp [List.filterMap_cons, hmark, purgeFold]

theorem purgeOne_notIn_self (sid : String) (idx : IndexRecord)
    (hnod : ∀ hl ∈ idx.cwd_to_sessions, hl.2.Nodup) :
    notInIndex sid (purgeSessionFromIndex sid idx) := by
  constructor
  · intro hl' hmem' hsidmem
    obtain ⟨hl, hhl, hf⟩ := List.mem_filterMap.mp hmem'
    by_cases hin : sid ∈ hl.2
    · simp only [hin, if_true] at hf
      by_cases hnil : hl.2.erase sid = []
      · simp [hnil] at hf
      · rw [if_neg hnil] at hf
        injection hf with hf
        rw [← hf] at hsidmem
        have := ((hnod hl hhl).mem_erase_iff).mp hsidmem
        exact this.1 rfl
    · rw [if_neg hin] at hf
      injection hf with hf
      rw [← hf] at hsidmem
      exact hin hsidmem
  · intro ps hps
    have := List.mem_filter.mp hps
    simpa using this.2

theorem purgeOne_preserves_notIn (x sid : String) (idx : IndexRecord)
    (h : notInIndex x idx) : notInIndex x (purgeSessionFromIndex sid idx) := by
  constructor
  · intro hl' hmem' hxmem
    obtain ⟨hl, hhl, hf⟩ := List.mem_filterMap.mp hmem'
    by_cases hin : sid ∈ hl.2
    · simp only [hin, if_true] at hf
      by_cases hnil : hl.2.erase sid = []
      · simp [hnil] at hf
      · rw [if_neg hnil] at hf
        injection hf with hf
        rw [← hf] at hxmem
        exact h.1 hl hhl (List.erase_subset _ _ hxmem)
    · rw [if_neg hin] at hf
      injection hf with hf
      rw [← hf] at hxmem
      exact h.1 hl hhl hxmem
  · intro ps hps
    exact h.2 ps (List.mem_filter.mp hps).1

theorem purgeOne_preserves_nodup (sid : String) (idx : IndexRecord)
    (hnod : ∀ hl ∈ idx.cwd_to_sessions, hl.2.Nodup) :
    ∀ hl ∈ (purgeSessionFromIndex sid idx).cwd_to_sessions, hl.2.Nodup := by
  intro hl' hmem'
  obtain ⟨hl, hhl, hf⟩ := List.mem_filterMap.mp hmem'
  by_cases hin : sid ∈ hl.2
  · simp only [hin, if_true] at hf
    by_cases hnil : hl.2.erase sid = []
    · simp [hnil] at hf
    · rw [if_neg hnil] at hf
      injection hf with hf
      rw [← hf]
      exact (hnod hl hhl).erase sid
  · rw [if_neg hin] at hf
    injection hf with hf
    rw [← hf]
    exact hnod hl hhl

theorem purgeFold_preserves_notIn (x : String) (ids : List String) :
    ∀ idx : IndexRecord, notInIndex x idx → notInIndex x (purgeFold idx ids) := by
  induction ids with
  | nil => intro idx h; exact h
  | cons i rest ih =>
      intro idx h
      exact ih (purgeSessionFromIndex i idx) (purgeOne_preserves_notIn x i idx h)

theorem purgeFold_preserves_nodup (ids : List String) :
    ∀ idx : IndexRecord, (∀ hl ∈ idx.cwd_to_sessions, hl.2.Nodup) →
      ∀ hl ∈ (purgeFold idx ids).cwd_to_sessions, hl.2.Nodup := by
  induction ids with
  | nil => intro idx h; exact h
  | cons i rest ih =>
      intro idx h
      exact ih (purgeSessionFromIndex i idx) (purgeOne_preserves_nodup i idx h)

theorem purgeFold_notIn (sid : String) (ids : List String) :
    ∀ idx : IndexRecord, (∀ hl ∈ idx.cwd_to_sessions, hl.2.Nodup) → sid ∈ ids →
      notInIndex sid (purgeFold idx ids) := by
  induction ids with
  | nil => intro idx _ hmem; simp at hmem
  | cons i rest ih =>
      intro idx hnod hmem
      rcases List.mem_cons.mp hmem with rfl | hmem'
      · exact purgeFold_preserves_notIn sid rest (purgeSessionFromIndex sid idx)
          (purgeOne_notIn_self sid idx hnod)
      · exact ih (purgeSessionFromIndex i idx) (purgeOne_preserves_nodup i idx hnod) hmem'

theorem filterMap_staleMark_keys (now : Nat) (l : List (String × SessionRecord)) :
    ((l.filterMap (staleMark now)).map Prod.fst).Sublist (l.map Prod.fst) := by
  induction l with
  | nil => simp
  | cons ks rest ih =>
      by_cases h : ks.2.status = "active"
      · simp only [List.filterMap_cons, staleMark, h, if_true, List.map_cons]
        exact ih.cons₂ _
      · simp only [List.filterMap_cons, staleMark, h, if_false, List.map_cons]
        exact ih.cons _

theorem activeOf_nil_sessions (st : RegistryState) (h : st.sessions = [])
    (ids : List String) : activeOf st ids = [] := by
  have hload : ∀ sid, loadSession st sid = none := by
    intro sid
    show alistLookup sid st.sessions = none
    rw [h]
    rfl
  induction ids with
  | nil => rfl
  | cons a rest ih =>
      simp only [activeOf, List.filterMap_cons, hload] at ih ⊢
      exact ih

theorem find_none_of_no_sessions (hash : String → String) (env : Env)
    (st : RegistryState) (h : st.sessions = []) :
    find_session_for_tool hash env st = none := by
  have hload : ∀ sid, loadSession st sid = none := by
    intro sid
    show alistLookup sid st.sessions = none
    rw [h]
    rfl
  simp only [find_session_for_tool]
  by_cases hie : ((alistLookup (hash env.cwd) st.index.cwd_to_sessions).getD []).isEmpty
  · rw [if_pos hie]
    cases hpk : alistLookup env.ppid st.index.ppid_to_session with
    | none => rfl
    | some p => simp [hload]
  · rw [if_neg hie]
    simp [activeOf_nil_sessions st h]

/-- C5: with threshold 0, the first `cleanup_stale_sessions` call (made
strictly after all recorded activity) marks every `active` record `stale`,
and a second call (strictly later again) deletes every remaining record —
`stopped` records are already deleted by the first pass, `stale` ones by
the second — removing each record file and purging each id from both
`cwd_to_sessions` and `ppid_to_session`; afterwards `load` of any id and
`find_session_for_tool` from any context both return absent. -/
theorem cleanup_zero_two_sweeps (hash : String → String) (env1 env2 : Env)
    (st : RegistryState)
    (hwfid : ∀ ks ∈ st.sessions, ks.2.session_id = ks.1)
    (hold : ∀ ks ∈ st.sessions, ks.2.last_activity < env1.now)
    (hstat : ∀ ks ∈ st.sessions,
      ks.2.status = "active" ∨ ks.2.status = "stopped" ∨ ks.2.status = "stale")
    (hnodk : (st.sessions.map Prod.fst).Nodup)
    (hnodb : ∀ hl ∈ st.index.cwd_to_sessions, hl.2.Nodup)
    (htime : env1.now < env2.now) :
    (∀ ks ∈ st.sessions, ks.2.status = "active" →
       loadSession (cleanup_stale_sessions env1 0 st) ks.1
         = some { ks.2 with status := "stale", last_activity := env1.now }) ∧
    ((cleanup_stale_sessions env2 0 (cleanup_stale_sessions env1 0 st)).sessions = []) ∧
    (∀ sid, loadSession (cleanup_stale_sessions env2 0 (cleanup_stale_sessions env1 0 st)) sid
       = none) ∧
    (∀ sid ∈ st.sessions.map Prod.fst,
       notInIndex sid (cleanup_stale_sessions env2 0 (cleanup_stale_sessions env1 0 st)).index) ∧
    (∀ env' : Env, find_session_for_tool hash env'
       (cleanup_stale_sessions env2 0 (cleanup_stale_sessions env1 0 st)) = none) := by
  have hgo1 := cleanup_zero_go env1 st.sessions [] st.index hwfid hold hstat
    (by simpa using hnodk)
  have hst1 : cleanup_stale_sessions env1 0 st
      = ⟨st.sessions.filterMap (staleMark env1.now),
         purgeFold st.index (removedIds st.sessions)⟩ := by
    simpa [cleanup_stale_sessions] using hgo1
  have hmemL1 : ∀ e ∈ st.sessions.filterMap (staleMark env1.now),
      ∃ ks ∈ st.sessions, ks.2.status = "active" ∧
        e = (ks.1, { ks.2 with status := "stale", last_activity := env1.now }) := by
    intro e he
    obtain ⟨ks, hks, hsm⟩ := List.mem_filterMap.mp he
    by_cases h : ks.2.status = "active"
    · refine ⟨ks, hks, h, ?_⟩
      simp only [staleMark, h, if_true] at hsm
      injection hsm with hsm
      exact hsm.symm
    · simp [staleMark, h] at hsm
  have hnodk1 : ((st.sessions.filterMap (staleMark env1.now)).map Prod.fst).Nodup :=
    List.Nodup.sublist (filterMap_staleMark_keys env1.now st.sessions) hnodk
  have hwfid1 : ∀ e ∈ st.sessions.filterMap (staleMark env1.now),
      e.2.session_id = e.1 := by
    intro e he
    obtain ⟨ks, hks, _, rfl⟩ := hmemL1 e he
    simpa using hwfid ks hks
  have hold1 : ∀ e ∈ st.sessions.filterMap (staleMark env1.now),
      e.2.last_activity < env2.now := by
    intro e he
    obtain ⟨ks, hks, _, rfl⟩ := hmemL1 e he
    simpa using htime
  have hstat1 : ∀ e ∈ st.sessions.filterMap (staleMark env1.now),
      e.2.status = "active" ∨ e.2.status = "stopped" ∨ e.2.status = "stale" := by
    intro e he
    obtain ⟨ks, hks, _, rfl⟩ := hmemL1 e he
    right; right; rfl
  have hgo2 := cleanup_zero_go env2 (st.sessions.filterMap (staleMark env1.now)) []
    (purgeFold st.index (removedIds st.sessions)) hwfid1 hold1 hstat1
    (by simpa using hnodk1)
  have hst2 : cleanup_stale_sessions env2 0 (cleanup_stale_sessions env1 0 st)
      = ⟨(st.sessions.filterMap (staleMark env1.now)).filterMap (staleMark env2.now),
         purgeFold (purgeFold st.index (removedIds st.sessions))
           (removedIds (st.sessions.filterMap (staleMark env1.now)))⟩ := by
    rw [hst1]
    simpa [cleanup_stale_sessions] using hgo2
  have hempty :
      (st.sessions.filterMap (staleMark env1.now)).filterMap (staleMark env2.now) = [] := by
    rw [List.filterMap_eq_nil_iff]
    intro e he
    obtain ⟨ks, hks, _, rfl⟩ := hmemL1 e he
    simp [staleMark]
  have hids2 : removedIds (st.sessions.filterMap (staleMark env1.now))
      = (st.sessions.filterMap (staleMark env1.now)).map Prod.fst := by
    unfold removedIds
    congr 1
    rw [List.filter_eq_self]
    intro e he
    obtain ⟨ks, hks, _, rfl⟩ := hmemL1 e he
    simp
  refine ⟨?_, ?_, ?_, ?_, ?_⟩
  · intro ks hks hact
    rw [hst1]
    show alistLookup ks.1 (st.sessions.filterMap (staleMark env1.now)) = _
    refine alistLookup_of_mem_nodup _ _ _ ?_ hnodk1
    exact List.mem_filterMap.mpr ⟨ks, hks, by simp [staleMark, hact]⟩
  · rw [hst2]
    exact hempty
  · intro sid
    rw [hst2]
    show alistLookup sid
      ((st.sessions.filterMap (staleMark env1.now)).filterMap (staleMark env2.now)) = none
    rw [hempty]
    rfl
  · intro sid hsid
    rw [hst2]
    show notInIndex sid (purgeFold (purgeFold st.index (removedIds st.sessions))
      (removedIds (st.sessions.filterMap (staleMark env1.now))))
    obtain ⟨ks, hks, hfst⟩ := List.mem_map.mp hsid
    have hnodb1 : ∀ hl ∈ (purgeFold st.index (removedIds st.sessions)).cwd_to_sessions,
        hl.2.Nodup := purgeFold_preserves_nodup _ _ hnodb
    rcases hstat ks hks with hact | hstop
    · have hmem2 : sid ∈ removedIds (st.sessions.filterMap (staleMark env1.now)) := by
        rw [hids2]
        refine List.mem_map.mpr
          ⟨(ks.1, { ks.2 with status := "stale", last_activity := env1.now }), ?_, hfst⟩
        exact List.mem_filterMap.mpr ⟨ks, hks, by simp [staleMark, hact]⟩
      exact purgeFold_notIn sid _ _ hnodb1 hmem2
    · have h1 : sid ∈ removedIds st.sessions := by
        unfold removedIds
        refine List.mem_map.mpr ⟨ks, ?_, hfst⟩
        rw [List.mem_filter]
        refine ⟨hks, ?_⟩
        rcases hstop with h | h <;> simp [h]
      have h2 : notInIndex sid (purgeFold st.index (removedIds st.sessions)) :=
        purgeFold_notIn sid _ _ hnodb h1
      exact purgeFold_preserves_notIn sid _ _ h2
  · intro env'
    apply find_none_of_no_sessions
    rw [hst2]
    exact hempty

/-- C5 witness: the two zero-threshold sweeps at a concrete input (one
active and one stopped session sharing a directory). -/
theorem cleanup_zero_two_sweeps_witness :
    (loadSession
        (cleanup_stale_sessions ⟨"/a", 7, 5⟩ 0
          ⟨[("s1", ⟨"s1", "t1", 0, 1, "/a", "ha", 7, none, "active", []⟩),
            ("s2", ⟨"s2", "t2", 0, 1, "/a", "ha", 8, none, "stopped", []⟩)],
           ⟨[("ha", ["s1", "s2"])], [(7, "s1"), (8, "s2")]⟩⟩) "s1"
      = some ⟨"s1", "t1", 0, 5, "/a", "ha", 7, none, "stale", []⟩) ∧
    ((cleanup_stale_sessions ⟨"/a", 7, 9⟩ 0
        (cleanup_stale_sessions ⟨"/a", 7, 5⟩ 0
          ⟨[("s1", ⟨"s1", "t1", 0, 1, "/a", "ha", 7, none, "active", []⟩),
            ("s2", ⟨"s2", "t2", 0, 1, "/a", "ha", 8, none, "stopped", []⟩)],
           ⟨[("ha", ["s1", "s2"])], [(7, "s1"), (8, "s2")]⟩⟩)).sessions = []) ∧
    notInIndex "s1"
      (cleanup_stale_sessions ⟨"/a", 7, 9⟩ 0
        (cleanup_stale_sessions ⟨"/a", 7, 5⟩ 0
          ⟨[("s1", ⟨"s1", "t1", 0, 1, "/a", "ha", 7, none, "active", []⟩),
            ("s2", ⟨"s2", "t2", 0, 1, "/a", "ha", 8, none, "stopped", []⟩)],
           ⟨[("ha", ["s1", "s2"])], [(7, "s1"), (8, "s2")]⟩⟩)).index ∧
    find_session_for_tool idHash ⟨"/a", 7, 11⟩
      (cleanup_stale_sessions ⟨"/a", 7, 9⟩ 0
        (cleanup_stale_sessions ⟨"/a", 7, 5⟩ 0
          ⟨[("s1", ⟨"s1", "t1", 0, 1, "/a", "ha", 7, none, "active", []⟩),
            ("s2", ⟨"s2", "t2", 0, 1, "/a", "ha", 8, none, "stopped", []⟩)],
           ⟨[("ha", ["s1", "s2"])], [(7, "s1"), (8, "s2")]⟩⟩)) = none := by
  have h := cleanup_zero_two_sweeps idHash ⟨"/a", 7, 5⟩ ⟨"/a", 7, 9⟩
    ⟨[("s1", ⟨"s1", "t1", 0, 1, "/a", "ha", 7, none, "active", []⟩),
      ("s2", ⟨"s2", "t2", 0, 1, "/a", "ha", 8, none, "stopped", []⟩)],
     ⟨[("ha", ["s1", "s2"])], [(7, "s1"), (8, "s2")]⟩⟩
    (by decide) (by decide) (by decide) (by decide) (by decide) (by decide)
  refine ⟨?_, h.2.1, h.2.2.2.1 "s1" (by decide), h.2.2.2.2 ⟨"/a", 7, 11⟩⟩
  exact h.1 ("s1", ⟨"s1", "t1", 0, 1, "/a", "ha", 7, none, "active", []⟩) (by decide) rfl
